import Mathlib

/-!
Verification of the LCMS_Automation sequence core (`src/utils.py`).

The development shallowly embeds the sequence generator
(`generate_sequence`), the name resolver (`generate_sample_name`) and the
template store (`load_templates` / `save_template` / `delete_template`).
Python dictionaries with `.get` defaults are modelled as structures whose
fields carry the corresponding default values; the Streamlit session state
read by the name resolver is passed explicitly as lookup functions; the
template JSON file is modelled as an abstract store state.
-/

set_option maxRecDepth 4000

namespace LCMS

/-- The four fixed category keys of `sample_types`
(`'standards'`, `'samples'`, `'qc'`, `'blanks'`). -/
inductive TypeKey where
  | standards
  | samples
  | qc
  | blanks
deriving DecidableEq, Fintype

/-- One category's configuration dictionary.  Field defaults mirror the
`.get` defaults used by `generate_sequence`: `enabled` defaults to falsy,
`count` to `0`, `rule` to `''`, `interval` to `0`; `start_count` is
optional (`config.get('start_count', config.get('count', 0))`). -/
structure SampleConfig where
  enabled : Bool := false
  count : Int := 0
  rule : String := ""
  interval : Int := 0
  start_count : Option Int := none
deriving DecidableEq

/-- An element of the generated sequence: `{'type': stype, 'index': i}`. -/
structure SequenceEntry where
  type : String
  index : Int
deriving DecidableEq

/-- `type_display` mapping from `generate_sequence`. -/
def type_display : TypeKey → String
  | .standards => "Standard"
  | .samples => "Sample"
  | .qc => "QC"
  | .blanks => "Blank"

/-- The default `type_order` (`['standards', 'samples', 'qc', 'blanks']`). -/
def defaultOrder : List TypeKey :=
  [TypeKey.standards, TypeKey.samples, TypeKey.qc, TypeKey.blanks]

/-- The FREQUENCY_RULES list that the main-sequence membership test checks
(`rule not in [...]`). -/
def placementRules : List String :=
  ["At the start only", "At the end only", "At fixed interval",
   "At start + fixed interval"]

/-- `includes_interval(rule)` from `generate_sequence`. -/
def includes_interval (rule : String) : Bool :=
  rule == "At fixed interval" || rule == "At start + fixed interval"

/-- `add_block(stype, count, sequence)`: appends entries with indices
`1..count` (`range(1, count + 1)`, empty for non-positive counts). -/
def add_block (stype : String) (count : Int) : List SequenceEntry :=
  (List.range count.toNat).map (fun (i : Nat) => ⟨stype, (i : Int) + 1⟩)

/-- Phase A body for a single category: the `if/elif` chain over the
rule of an enabled category in the START-items loop. -/
def startBlockFor (cfgs : TypeKey → SampleConfig) (k : TypeKey) :
    List SequenceEntry :=
  if (cfgs k).enabled = false then []
  else if (cfgs k).rule = "At the start only" then
    add_block (type_display k) (cfgs k).count
  else if (cfgs k).rule = "At start + fixed interval" then
    add_block (type_display k) ((cfgs k).start_count.getD (cfgs k).count)
  else if (cfgs k).rule = "At fixed interval" then
    add_block (type_display k) (cfgs k).count
  else []

/-- Phase A (`=== START ITEMS ===`): iterate `type_order`. -/
def startItems (cfgs : TypeKey → SampleConfig) (order : List TypeKey) :
    List SequenceEntry :=
  order.flatMap (startBlockFor cfgs)

/-- Membership in `interval_types`: enabled and an interval-based rule. -/
def isIntervalType (cfgs : TypeKey → SampleConfig) (k : TypeKey) : Bool :=
  (cfgs k).enabled && includes_interval (cfgs k).rule

/-- Phase B inner check for one `interval_key`: emit a repeat block when
`interval > 0 and sample_counter % interval == 0`. -/
def intervalBlockFor (cfgs : TypeKey → SampleConfig) (counter : Nat)
    (k : TypeKey) : List SequenceEntry :=
  if isIntervalType cfgs k = true ∧ (cfgs k).interval > 0 ∧
      (counter : Int) % (cfgs k).interval = 0 then
    add_block (type_display k) (cfgs k).count
  else []

/-- All repeat blocks emitted after one main entry, iterating
`type_order`. -/
def intervalBlocksAt (cfgs : TypeKey → SampleConfig) (order : List TypeKey)
    (counter : Nat) : List SequenceEntry :=
  order.flatMap (intervalBlockFor cfgs counter)

/-- Membership in `main_types`: enabled, and `samples` always qualifies
while any other category qualifies only when its rule is not one of the
four placement rules. -/
def isMainType (cfgs : TypeKey → SampleConfig) (k : TypeKey) : Bool :=
  (cfgs k).enabled &&
    (k == TypeKey.samples || !(placementRules.contains (cfgs k).rule))

/-- `main_types` in `type_order`. -/
def mainTypes (cfgs : TypeKey → SampleConfig) (order : List TypeKey) :
    List TypeKey :=
  order.filter (isMainType cfgs)

/-- Phase B contribution of one main category starting from a given
`sample_counter` value: entry `i+1`, counter increment, then the interval
blocks for the incremented counter. -/
def mainRunFor (cfgs : TypeKey → SampleConfig) (order : List TypeKey)
    (k : TypeKey) (counter0 : Nat) : List SequenceEntry :=
  (List.range (cfgs k).count.toNat).flatMap
    (fun i => ⟨type_display k, (i : Int) + 1⟩ ::
      intervalBlocksAt cfgs order (counter0 + i + 1))

/-- Phase B: process the main categories in order, threading the global
`sample_counter` through them. -/
def mainItemsAux (cfgs : TypeKey → SampleConfig) (order : List TypeKey) :
    List TypeKey → Nat → List SequenceEntry
  | [], _ => []
  | k :: ks, counter0 =>
      mainRunFor cfgs order k counter0 ++
        mainItemsAux cfgs order ks (counter0 + (cfgs k).count.toNat)

/-- Phase B (`=== MAIN SEQUENCE ===`), starting with `sample_counter = 0`. -/
def mainItems (cfgs : TypeKey → SampleConfig) (order : List TypeKey) :
    List SequenceEntry :=
  mainItemsAux cfgs order (mainTypes cfgs order) 0

/-- Phase C body for a single category (`'At the end only'`). -/
def endBlockFor (cfgs : TypeKey → SampleConfig) (k : TypeKey) :
    List SequenceEntry :=
  if (cfgs k).enabled = true ∧ (cfgs k).rule = "At the end only" then
    add_block (type_display k) (cfgs k).count
  else []

/-- Phase C (`=== END ITEMS ===`). -/
def endItems (cfgs : TypeKey → SampleConfig) (order : List TypeKey) :
    List SequenceEntry :=
  order.flatMap (endBlockFor cfgs)

/-- `generate_sequence(sample_types, type_order)` from `src/utils.py`:
start items, then the interleaved main sequence, then end items. -/
def generate_sequence (cfgs : TypeKey → SampleConfig)
    (order : List TypeKey) : List SequenceEntry :=
  startItems cfgs order ++ mainItems cfgs order ++ endItems cfgs order

/-- `generate_sample_name(item, naming_mode, sequence)` from
`src/utils.py`.  The Streamlit session state is passed explicitly:
`pfx`, `sfx` and `idxStart` model `st.session_state.get('prefix_...')`,
`('suffix_...')` and `('index_start_...')`, and `imported` models
`st.session_state.imported_names` (`none` when the attribute is absent).
`sequence.index(item)` is modelled with `List.indexOf`, which locates the
first entry equal to `item`; Python raises there when `item` is absent,
a case outside every property below (all assume membership). -/
def generate_sample_name (item : SequenceEntry) (naming_mode : String)
    (sequence : List SequenceEntry) (pfx sfx : String → Option String)
    (idxStart : String → Option Int) (imported : Option (List String)) :
    String :=
  let type_name := item.type.toLower
  let idx := item.index
  if naming_mode = "None" then item.type ++ toString idx
  else if naming_mode = "Auto-build (Prefix + Index + Suffix)" then
    let p := (pfx type_name).getD (type_name.take 3).toUpper
    let sfix := (sfx type_name).getD ("")
    let index_start := (idxStart type_name).getD 1
    if sfix ≠ "" then
      p ++ "_" ++ toString (index_start + idx - 1) ++ "_" ++ sfix
    else p ++ "_" ++ toString (index_start + idx - 1)
  else if naming_mode = "Import from CSV/Excel" then
    match imported with
    | some names =>
      if sequence.isEmpty then item.type ++ toString idx
      else
        let total_idx :=
          ((sequence.take (sequence.indexOf item)).filter
            (fun s => s.type == item.type)).length
        if h : total_idx < names.length then names.get ⟨total_idx, h⟩
        else item.type ++ toString idx
    | none => item.type ++ toString idx
  else item.type ++ toString idx

/-- The template store file (`TEMPLATES_FILE`), abstracted: missing, in
one of the failure states that `load_templates`'s except clause catches
(read failure with `IOError`, or text that fails JSON parsing with
`json.JSONDecodeError`), or a parsed JSON object of named templates.
`α` abstracts the template value type.  A file whose bytes fail text
decoding is not representable here; that uncaught case is modelled by
`ReadOutcome.unicodeError`. -/
inductive StoreFile (α : Type) where
  | missing
  | corrupt
  | stored (entries : List (String × α))

/-- `load_templates()`: missing file or parse/read failure gives `{}`. -/
def load_templates {α : Type} : StoreFile α → List (String × α)
  | .missing => []
  | .corrupt => []
  | .stored entries => entries

/-- Python dict update `templates[name] = config`: replace the value at an
existing key in place, otherwise append the new binding. -/
def upsert {α : Type} : List (String × α) → String → α → List (String × α)
  | [], name, config => [(name, config)]
  | (k, v) :: t, name, config =>
      if k = name then (name, config) :: t else (k, v) :: upsert t name config

/-- `save_template(name, config)`: read all, upsert, write all. -/
def save_template {α : Type} (name : String) (config : α)
    (s : StoreFile α) : StoreFile α :=
  .stored (upsert (load_templates s) name config)

/-- `delete_template(name)`: read all, and only when the key is present,
remove it and write all (otherwise the file is left untouched). -/
def delete_template {α : Type} (name : String) (s : StoreFile α) :
    StoreFile α :=
  let templates := load_templates s
  if (templates.lookup name).isSome then
    .stored (templates.filter (fun kv => kv.1 ≠ name))
  else s

end LCMS


namespace LCMS

/-- Projection of a sequence onto one display category. -/
def proj (cat : String) (l : List SequenceEntry) : List SequenceEntry :=
  l.filter (fun e => e.type == cat)

/-- Turn off one category's `enabled` flag, leaving the rest of its
configuration and all other categories untouched. -/
def disable (cfgs : TypeKey → SampleConfig) (c : TypeKey) :
    TypeKey → SampleConfig :=
  fun k => if k = c then { cfgs c with enabled := false } else cfgs k

/-- Every enabled category other than `samples` carries one of the four
placement rules (the only configurations the UI can produce: the rule
select box offers exactly `FREQUENCY_RULES`, and `samples` shows no rule
selector at all). -/
def wellFormedCfg (cfgs : TypeKey → SampleConfig) : Prop :=
  ∀ k, k ≠ TypeKey.samples → (cfgs k).enabled = true →
    placementRules.contains (cfgs k).rule = true

instance (cfgs : TypeKey → SampleConfig) : Decidable (wellFormedCfg cfgs) :=
  inferInstanceAs (Decidable (∀ k, k ≠ TypeKey.samples →
    (cfgs k).enabled = true → placementRules.contains (cfgs k).rule = true))

end LCMS

namespace LCMS

/-- C1 first scenario: `Sample` enabled with count 20 (its stored rule not
one of the placement rules), `QC` enabled with rule `At fixed interval`,
count 2, interval 5, other categories disabled. -/
def cfgsC1a : TypeKey → SampleConfig := fun k =>
  match k with
  | .samples => { enabled := true, count := 20 }
  | .qc => { enabled := true, count := 2, rule := "At fixed interval",
             interval := 5 }
  | _ => {}

/-- C1 second scenario: `Sample` enabled count 10, `QC` enabled count 1,
rule `At fixed interval`, interval 5. -/
def cfgsC1b : TypeKey → SampleConfig := fun k =>
  match k with
  | .samples => { enabled := true, count := 10 }
  | .qc => { enabled := true, count := 1, rule := "At fixed interval",
             interval := 5 }
  | _ => {}

/-- The 28-entry output the claim predicts for the first scenario
(no QC block after Sample20). -/
def claimedC1a : List SequenceEntry :=
  [⟨"QC", 1⟩, ⟨"QC", 2⟩,
   ⟨"Sample", 1⟩, ⟨"Sample", 2⟩, ⟨"Sample", 3⟩, ⟨"Sample", 4⟩,
   ⟨"Sample", 5⟩, ⟨"QC", 1⟩, ⟨"QC", 2⟩,
   ⟨"Sample", 6⟩, ⟨"Sample", 7⟩, ⟨"Sample", 8⟩, ⟨"Sample", 9⟩,
   ⟨"Sample", 10⟩, ⟨"QC", 1⟩, ⟨"QC", 2⟩,
   ⟨"Sample", 11⟩, ⟨"Sample", 12⟩, ⟨"Sample", 13⟩, ⟨"Sample", 14⟩,
   ⟨"Sample", 15⟩, ⟨"QC", 1⟩, ⟨"QC", 2⟩,
   ⟨"Sample", 16⟩, ⟨"Sample", 17⟩, ⟨"Sample", 18⟩, ⟨"Sample", 19⟩,
   ⟨"Sample", 20⟩]

/-- The 12-entry output the claim predicts for the second scenario
(no QC block after Sample10). -/
def claimedC1b : List SequenceEntry :=
  [⟨"QC", 1⟩,
   ⟨"Sample", 1⟩, ⟨"Sample", 2⟩, ⟨"Sample", 3⟩, ⟨"Sample", 4⟩,
   ⟨"Sample", 5⟩, ⟨"QC", 1⟩,
   ⟨"Sample", 6⟩, ⟨"Sample", 7⟩, ⟨"Sample", 8⟩, ⟨"Sample", 9⟩,
   ⟨"Sample", 10⟩]

/-- C1 counterexample: on the claim's first configuration the code emits a
trailing QC block after Sample20, so the output is not the claimed
28-entry list (and on the second configuration it likewise differs from
the claimed 12-entry list). -/
theorem c1_interval_law_counterexample :
    generate_sequence cfgsC1a defaultOrder = claimedC1a ++ [⟨"QC", 1⟩, ⟨"QC", 2⟩]
    ∧ claimedC1a ++ [⟨"QC", 1⟩, ⟨"QC", 2⟩] ≠ claimedC1a
    ∧ generate_sequence cfgsC1b defaultOrder = claimedC1b ++ [⟨"QC", 1⟩]
    ∧ claimedC1b ++ [⟨"QC", 1⟩] ≠ claimedC1b := by
  refine ⟨by decide, by decide, by decide, by decide⟩

/-- C1 amended: with `Sample` enabled (count 20, its stored rule not one
of the placement rules) and QC `FixedInterval` count 2 interval 5, the
output is the claimed bracketed sequence with one more `QC1,QC2` block
after Sample20 (the interval check also fires at sample_counter = 20);
likewise the second scenario ends with a QC1 block after Sample10,
giving 13 entries. -/
theorem c1_interval_law_amended :
    generate_sequence cfgsC1a defaultOrder =
      claimedC1a ++ [⟨"QC", 1⟩, ⟨"QC", 2⟩]
    ∧ generate_sequence cfgsC1b defaultOrder = claimedC1b ++ [⟨"QC", 1⟩]
    ∧ (generate_sequence cfgsC1b defaultOrder).length = 13 := by
  refine ⟨by decide, by decide, by decide⟩

/-- C2 failing input: the repository's default configuration shape for
`samples` (`config.py` stores `rule: 'At the start only'` for it, and the
step-2 UI never lets the user change it), enabled with count 2, all other
categories disabled. -/
def cfgsC2 : TypeKey → SampleConfig := fun k =>
  match k with
  | .samples => { enabled := true, count := 2, rule := "At the start only" }
  | _ => {}

/-- C2: evaluating the code at the failing input.  The whole output is one
maximal contiguous run of `Sample` entries whose indices are `1,2,1,2` —
not `1..n` for any `n` — because the START-items phase honours the stored
`samples` rule and emits a Sample block right before the main loop emits
the samples again. -/
theorem c2_block_index_code_eval :
    generate_sequence cfgsC2 defaultOrder =
      [⟨"Sample", 1⟩, ⟨"Sample", 2⟩, ⟨"Sample", 1⟩, ⟨"Sample", 2⟩]
    ∧ (∀ e ∈ generate_sequence cfgsC2 defaultOrder, e.type = "Sample")
    ∧ (generate_sequence cfgsC2 defaultOrder).map SequenceEntry.index ≠
        [1, 2, 3, 4] := by
  refine ⟨by decide, by decide, by decide⟩

/-- What `open(TEMPLATES_FILE, 'r')` followed by `json.load(f)` does on
an existing file, by Python exception class: success; `IOError`/`OSError`
while opening or reading; `json.JSONDecodeError` on text that is not
valid JSON; or `UnicodeDecodeError` on bytes that cannot be decoded as
text (raised while the text stream is read, a `ValueError` that is
neither `json.JSONDecodeError` nor `IOError`). -/
inductive ReadOutcome (α : Type) where
  | ok (entries : List (String × α))
  | ioError
  | jsonError
  | unicodeError

/-- The result of `load_templates()` with the try/except modelled
explicitly.  The input is `none` when `os.path.exists` is false, and
`some r` with the read outcome otherwise.  The `except
(json.JSONDecodeError, IOError)` clause recovers `ioError` and
`jsonError` to `{}`; `unicodeError` matches neither class, so the
exception propagates (`Except.error`). -/
def load_templates_result {α : Type} :
    Option (ReadOutcome α) → Except Unit (List (String × α))
  | none => Except.ok []
  | some (ReadOutcome.ok entries) => Except.ok entries
  | some ReadOutcome.ioError => Except.ok []
  | some ReadOutcome.jsonError => Except.ok []
  | some ReadOutcome.unicodeError => Except.error ()

/-- C9 counterexample: a stored file whose bytes fail text decoding makes
`load_templates` raise `UnicodeDecodeError` — the except clause names
only `json.JSONDecodeError` and `IOError` — so on contents that cannot
be read it surfaces an error instead of returning the empty mapping. -/
theorem c9_load_templates_counterexample :
    load_templates_result
        (some (ReadOutcome.unicodeError : ReadOutcome Int)) =
      Except.error ()
    ∧ (Except.error () : Except Unit (List (String × Int))) ≠
        Except.ok [] :=
  ⟨rfl, fun h => Except.noConfusion h⟩

/-- C9 amended: `load_templates` returns the empty mapping when the file
is missing, when opening or reading raises `IOError`, and when the text
fails to parse as JSON (`json.JSONDecodeError`); it returns the parsed
mapping on success; but it does not catch `UnicodeDecodeError`, so a
stored file with undecodable bytes raises instead of returning a
mapping. -/
theorem c9_load_templates_amended (α : Type) (es : List (String × α)) :
    load_templates_result (none : Option (ReadOutcome α)) = Except.ok []
    ∧ load_templates_result (some (ReadOutcome.ioError : ReadOutcome α)) =
        Except.ok []
    ∧ load_templates_result (some (ReadOutcome.jsonError : ReadOutcome α)) =
        Except.ok []
    ∧ load_templates_result (some (ReadOutcome.ok es)) = Except.ok es
    ∧ load_templates_result
        (some (ReadOutcome.unicodeError : ReadOutcome α)) =
        Except.error () :=
  ⟨rfl, rfl, rfl, rfl, rfl⟩

end LCMS

namespace LCMS

/-- C4 counterexample input: `samples` disabled, `qc` enabled with count 1
and an empty rule string (not one of the four placement rules), `blanks`
enabled with rule `At fixed interval`, count 1, interval 1. -/
def cfgsC4 : TypeKey → SampleConfig := fun k =>
  match k with
  | .qc => { enabled := true, count := 1 }
  | .blanks => { enabled := true, count := 1, rule := "At fixed interval",
                 interval := 1 }
  | _ => {}

/-- C4 counterexample: with `Sample` disabled the main loop still runs —
`qc` (whose rule is not a placement rule) is a main type, its entry
increments the global sample counter, and that increment retriggers the
`blanks` interval block.  The output is Blank1, QC1, Blank1 rather than
the pure start+end items the claim predicts. -/
theorem c4_counter_increment_counterexample :
    generate_sequence cfgsC4 defaultOrder =
      [⟨"Blank", 1⟩, ⟨"QC", 1⟩, ⟨"Blank", 1⟩]
    ∧ (cfgsC4 TypeKey.samples).enabled = false
    ∧ generate_sequence cfgsC4 defaultOrder ≠
        startItems cfgsC4 defaultOrder ++ endItems cfgsC4 defaultOrder := by
  refine ⟨by decide, by decide, by decide⟩

/-- C4 amended: the global sample counter is incremented after every
main-category entry in Phase B, where `Sample` always qualifies as a main
category and any other enabled category qualifies exactly when its rule
is not one of the four placement rules.  Consequently, when `Sample` is
disabled and every other enabled category carries one of the four
placement rules, the entire Phase B main loop is suppressed (including
all interval repeat blocks) and the output is exactly the Phase A start
items followed by the Phase C end items. -/
theorem c4_counter_increment_amended (cfgs : TypeKey → SampleConfig)
    (order : List TypeKey) (hs : (cfgs TypeKey.samples).enabled = false)
    (hwf : wellFormedCfg cfgs) :
    generate_sequence cfgs order =
      startItems cfgs order ++ endItems cfgs order := by
  have hmt : ∀ k : TypeKey, isMainType cfgs k = false := by
    intro k
    by_cases hks : k = TypeKey.samples
    · subst hks
      simp [isMainType, hs]
    · rcases hen : (cfgs k).enabled with _ | _
      · simp [isMainType, hen]
      · have hmem : (cfgs k).rule ∈ placementRules := by
          simpa using hwf k hks hen
        simp [isMainType, hen, hks, hmem]
  have hmain : mainTypes cfgs order = [] := by
    rw [mainTypes, List.filter_eq_nil_iff]
    intro k _
    simp [hmt k]
  have hitems : mainItems cfgs order = [] := by
    rw [mainItems, hmain]
    rfl
  rw [generate_sequence, hitems, List.append_nil]

/-- C4 witness input: `samples` disabled, `qc` a `FixedInterval` category. -/
def cfgsC4w : TypeKey → SampleConfig := fun k =>
  match k with
  | .qc => { enabled := true, count := 1, rule := "At fixed interval",
             interval := 5 }
  | _ => {}

/-- C4 witness: the amended statement at a concrete configuration. -/
theorem c4_counter_increment_witness :
    (cfgsC4w TypeKey.samples).enabled = false
    ∧ wellFormedCfg cfgsC4w
    ∧ generate_sequence cfgsC4w defaultOrder =
        startItems cfgsC4w defaultOrder ++ endItems cfgsC4w defaultOrder :=
  ⟨by decide, by decide,
    c4_counter_increment_amended cfgsC4w defaultOrder (by decide) (by decide)⟩

/-- C5 counterexample input: `qc` enabled with rule
`At start + fixed interval`, `count = 1` but `start_count = 3` (the cap
exists only in the UI widget, not in `generate_sequence`). -/
def cfgsC5 : TypeKey → SampleConfig := fun k =>
  match k with
  | .qc => { enabled := true, count := 1,
             rule := "At start + fixed interval", start_count := some 3,
             interval := 5 }
  | _ => {}

/-- C5 counterexample: with a stored `start_count` of 3 and `count` of 1
the start block has 3 entries — `generate_sequence` applies no cap at
`count`. -/
theorem c5_start_count_counterexample :
    generate_sequence cfgsC5 defaultOrder = [⟨"QC", 1⟩, ⟨"QC", 2⟩, ⟨"QC", 3⟩]
    ∧ (cfgsC5 TypeKey.qc).count = 1
    ∧ ¬ (generate_sequence cfgsC5 defaultOrder).length ≤
          (cfgsC5 TypeKey.qc).count.toNat := by
  refine ⟨by decide, by decide, by decide⟩

/-- C5 amended: for an enabled category with rule
`At start + fixed interval`, the Phase A start block has exactly
`start_count` entries with indices `1..start_count`, where `start_count`
defaults to `count` when unset; no cap at `count` is applied. -/
theorem c5_start_count_amended (cfgs : TypeKey → SampleConfig) (k : TypeKey)
    (he : (cfgs k).enabled = true)
    (hr : (cfgs k).rule = "At start + fixed interval") :
    startBlockFor cfgs k =
      add_block (type_display k) ((cfgs k).start_count.getD (cfgs k).count)
    ∧ (startBlockFor cfgs k).length =
        ((cfgs k).start_count.getD (cfgs k).count).toNat
    ∧ ∀ i, i < ((cfgs k).start_count.getD (cfgs k).count).toNat →
        (startBlockFor cfgs k)[i]? =
          some ⟨type_display k, (i : Int) + 1⟩ := by
  have h1 : startBlockFor cfgs k =
      add_block (type_display k) ((cfgs k).start_count.getD (cfgs k).count) := by
    rw [startBlockFor]
    simp only [he, hr]
    simp
  refine ⟨h1, ?_, ?_⟩
  · rw [h1]
    simp only [add_block, List.length_map, List.length_range]
  · intro i hi
    rw [h1]
    simp only [add_block, List.getElem?_map, List.getElem?_range, hi,
      if_true, Option.map_some']

/-- C5 witness: the amended statement at the concrete configuration with
`start_count = 3 > count = 1`. -/
theorem c5_start_count_witness :
    (cfgsC5 TypeKey.qc).enabled = true
    ∧ startBlockFor cfgsC5 TypeKey.qc =
        add_block (type_display TypeKey.qc)
          (((cfgsC5 TypeKey.qc).start_count).getD (cfgsC5 TypeKey.qc).count)
    ∧ (startBlockFor cfgsC5 TypeKey.qc).length = 3 :=
  ⟨by decide,
   (c5_start_count_amended cfgsC5 TypeKey.qc (by decide) (by decide)).1,
   by decide⟩

end LCMS

namespace LCMS

/-- C6: in AutoBuild mode the resolver returns
`prefix + "_" + (index_start + entry.index - 1)`, with `"_" + suffix`
appended exactly when the stored suffix is non-empty. -/
theorem c6_autobuild_naming (item : SequenceEntry)
    (seq : List SequenceEntry) (pfx sfx : String → Option String)
    (idxStart : String → Option Int) (imp : Option (List String))
    (p sfix : String) (i0 : Int)
    (hp : pfx item.type.toLower = some p)
    (hs : sfx item.type.toLower = some sfix)
    (hi : idxStart item.type.toLower = some i0) :
    (sfix ≠ "" →
      generate_sample_name item ("Auto-build (Prefix + Index + Suffix)")
          seq pfx sfx idxStart imp =
        p ++ "_" ++ toString (i0 + item.index - 1) ++ "_" ++ sfix)
    ∧ (sfix = "" →
      generate_sample_name item ("Auto-build (Prefix + Index + Suffix)")
          seq pfx sfx idxStart imp =
        p ++ "_" ++ toString (i0 + item.index - 1)) := by
  constructor <;> intro hsf <;>
    simp [generate_sample_name, hp, hs, hi, hsf]

/-- C6 witness: stored prefix `STD`, index_start 1, suffix `dil` resolve
entry `{Standard, 3}` to `STD_3_dil`. -/
theorem c6_autobuild_naming_witness :
    generate_sample_name (⟨"Standard", 3⟩ : SequenceEntry)
        ("Auto-build (Prefix + Index + Suffix)") []
        (fun _ => some ("STD")) (fun _ => some ("dil"))
        (fun _ => some 1) none = "STD_3_dil" := by
  have h := (c6_autobuild_naming (⟨"Standard", 3⟩ : SequenceEntry) []
    (fun _ => some ("STD")) (fun _ => some ("dil"))
    (fun _ => some 1) none "STD" "dil" 1 rfl rfl rfl).1 (by decide)
  rw [h]
  rfl

end LCMS

namespace LCMS

/-- `List.indexOf` returns `p` when position `p` holds `a` and no earlier
position does. -/
theorem indexOf_eq_of_first {α : Type} [DecidableEq α] :
    ∀ (l : List α) (p : Nat) (a : α), l[p]? = some a →
      (∀ q, q < p → l[q]? ≠ some a) → l.indexOf a = p
  | [], p, a, h, _ => by simp at h
  | x :: t, 0, a, h, _ => by
      simp only [List.getElem?_cons_zero, Option.some.injEq] at h
      subst h
      exact List.indexOf_cons_self x t
  | x :: t, p + 1, a, h, hq => by
      have hxa : x ≠ a := by
        intro he
        exact hq 0 (Nat.succ_pos p) (by simp [he])
      rw [List.indexOf_cons_ne t hxa]
      have hrec := indexOf_eq_of_first t p a
        (by simpa using h)
        (fun q hq2 => by
          have := hq (q + 1) (Nat.succ_lt_succ hq2)
          simpa using this)
      omega

/-- C3 amended: in ImportedList mode the ordinal is computed at the first
position of an entry equal (same category and index) to the one being
resolved; in particular, when the first two Sample entries of the
sequence are each the first occurrence of their value, the first resolves
to `imported_names[0]` and the second to `imported_names[1]`, regardless
of interleaved categories; and any entry (at the first occurrence of its
value) whose ordinal is at least `len(imported_names)` falls back to the
None-mode name `category + index`. -/
theorem c3_importedlist_amended (seq : List SequenceEntry)
    (names : List String) (pfx sfx : String → Option String)
    (idxStart : String → Option Int) (i j : Nat) (ei ej : SequenceEntry)
    (hie : seq[i]? = some ei) (hje : seq[j]? = some ej)
    (hti : ei.type = "Sample") (htj : ej.type = "Sample")
    (hfi : ∀ q, q < i → seq[q]? ≠ some ei)
    (hfj : ∀ q, q < j → seq[q]? ≠ some ej)
    (hci : ((seq.take i).filter (fun s => s.type == "Sample")).length = 0)
    (hcj : ((seq.take j).filter (fun s => s.type == "Sample")).length = 1)
    (hn : 1 < names.length) :
    generate_sample_name ei ("Import from CSV/Excel") seq pfx sfx idxStart
        (some names) = names.get ⟨0, by omega⟩
    ∧ generate_sample_name ej ("Import from CSV/Excel") seq pfx sfx idxStart
        (some names) = names.get ⟨1, hn⟩
    ∧ (∀ (e : SequenceEntry) (p : Nat), seq[p]? = some e →
        (∀ q, q < p → seq[q]? ≠ some e) →
        names.length ≤
          ((seq.take p).filter (fun s => s.type == e.type)).length →
        generate_sample_name e ("Import from CSV/Excel") seq pfx sfx
          idxStart (some names) = e.type ++ toString e.index) := by
  have hlen_i : i < seq.length := by
    rcases List.getElem?_eq_some.mp hie with ⟨hlt, _⟩
    exact hlt
  have hemp : seq.isEmpty = false := by
    rcases seq with _ | ⟨x, t⟩
    · simp at hlen_i
    · rfl
  have hidx_i : seq.indexOf ei = i := indexOf_eq_of_first seq i ei hie hfi
  have hidx_j : seq.indexOf ej = j := indexOf_eq_of_first seq j ej hje hfj
  refine ⟨?_, ?_, ?_⟩
  · simp only [generate_sample_name, hemp, if_true, Bool.false_eq_true,
      if_false, hidx_i, hti, hci]
    rw [dif_pos (by omega), if_neg (by decide), if_neg (by decide)]
  · simp only [generate_sample_name, hemp, if_true, Bool.false_eq_true,
      if_false, hidx_j, htj, hcj]
    rw [dif_pos (by omega), if_neg (by decide), if_neg (by decide)]
  · intro e p hpe hfirst hlen
    have hidx_p : seq.indexOf e = p := indexOf_eq_of_first seq p e hpe hfirst
    simp only [generate_sample_name, hemp, if_true, Bool.false_eq_true,
      if_false, hidx_p]
    rw [dif_neg (by omega), if_neg (by decide), if_neg (by decide)]

/-- C3 counterexample sequence: two equal `{Sample, 1}` entries with a QC
between them. -/
def seqC3 : List SequenceEntry := [⟨"Sample", 1⟩, ⟨"QC", 1⟩, ⟨"Sample", 1⟩]

/-- C3 counterexample: the Sample entry occurring at position 2 has one
same-category entry strictly before it, so the claim says it resolves to
`imported_names[1] = "B"`; but `sequence.index(item)` finds the equal
entry at position 0, so the resolver returns `"A"`. -/
theorem c3_importedlist_counterexample :
    seqC3[2]? = some (⟨"Sample", 1⟩ : SequenceEntry)
    ∧ ((seqC3.take 2).filter (fun s => s.type == "Sample")).length = 1
    ∧ generate_sample_name (⟨"Sample", 1⟩ : SequenceEntry)
        ("Import from CSV/Excel") seqC3 (fun _ => none) (fun _ => none)
        (fun _ => none) (some (["A", "B", "C"])) = "A"
    ∧ (["A", "B", "C"] : List String).getD 1 ("") ≠ "A" := by
  refine ⟨by decide, by decide, by decide, by decide⟩

/-- C3 witness sequence: five Sample entries with distinct index fields,
a QC interleaved after the first. -/
def seqC3w : List SequenceEntry :=
  [⟨"Sample", 1⟩, ⟨"QC", 1⟩, ⟨"Sample", 2⟩, ⟨"Sample", 3⟩,
   ⟨"Sample", 4⟩, ⟨"Sample", 5⟩]

/-- C3 witness: the amended statement at a concrete sequence with
imported names `A,B,C`: the first Sample entry resolves to `A`, the
second to `B`, and the fourth Sample entry (ordinal 3, past the end of
the imported list) falls back to the None-mode name `Sample5`. -/
theorem c3_importedlist_witness :
    generate_sample_name (⟨"Sample", 1⟩ : SequenceEntry)
        ("Import from CSV/Excel") seqC3w (fun _ => none) (fun _ => none)
        (fun _ => none) (some (["A", "B", "C"])) = "A"
    ∧ generate_sample_name (⟨"Sample", 2⟩ : SequenceEntry)
        ("Import from CSV/Excel") seqC3w (fun _ => none) (fun _ => none)
        (fun _ => none) (some (["A", "B", "C"])) = "B"
    ∧ generate_sample_name (⟨"Sample", 5⟩ : SequenceEntry)
        ("Import from CSV/Excel") seqC3w (fun _ => none) (fun _ => none)
        (fun _ => none) (some (["A", "B", "C"])) = "Sample5" := by
  have h := c3_importedlist_amended seqC3w ["A", "B", "C"] (fun _ => none)
    (fun _ => none) (fun _ => none) 0 2 ⟨"Sample", 1⟩ ⟨"Sample", 2⟩
    (by decide) (by decide) (by decide) (by decide)
    (by intro q hq; omega) (by decide) (by decide) (by decide) (by decide)
  refine ⟨h.1, h.2.1, ?_⟩
  have h3 := h.2.2 ⟨"Sample", 5⟩ 5 (by decide) (by decide) (by decide)
  rw [h3]
  rfl

end LCMS

namespace LCMS

/-- Upserting a binding makes it visible to lookup. -/
theorem lookup_upsert_self {α : Type} (l : List (String × α))
    (name : String) (c : α) : (upsert l name c).lookup name = some c := by
  induction l with
  | nil => simp [upsert, List.lookup]
  | cons kv t ih =>
      rcases kv with ⟨k, v⟩
      by_cases hk : k = name
      · subst hk
        simp [upsert, List.lookup]
      · have hb : (name == k) = false :=
          beq_eq_false_iff_ne.mpr (fun hh => hk hh.symm)
        simp [upsert, hk, List.lookup, hb, ih]

/-- Upserting one binding leaves lookups of other keys unchanged. -/
theorem lookup_upsert_ne {α : Type} (l : List (String × α))
    (name n' : String) (c : α) (h : n' ≠ name) :
    (upsert l name c).lookup n' = l.lookup n' := by
  have hb : (n' == name) = false := beq_eq_false_iff_ne.mpr h
  induction l with
  | nil => simp [upsert, List.lookup, hb]
  | cons kv t ih =>
      rcases kv with ⟨k, v⟩
      by_cases hk : k = name
      · subst hk
        simp [upsert, List.lookup, hb]
      · simp [upsert, hk, List.lookup, ih]

/-- Removing a key makes its lookup fail. -/
theorem lookup_filter_self {α : Type} (l : List (String × α))
    (name : String) :
    (l.filter (fun kv => kv.1 ≠ name)).lookup name = none := by
  induction l with
  | nil => rfl
  | cons kv t ih =>
      rcases kv with ⟨k, v⟩
      by_cases hk : k = name
      · rw [List.filter_cons_of_neg (by simp [hk])]
        exact ih
      · rw [List.filter_cons_of_pos (by simp [hk]), List.lookup_cons]
        have hb : (name == k) = false :=
          beq_eq_false_iff_ne.mpr (fun hh => hk hh.symm)
        rw [hb]
        exact ih

/-- Removing one key leaves lookups of other keys unchanged. -/
theorem lookup_filter_ne {α : Type} (l : List (String × α))
    (name n' : String) (h : n' ≠ name) :
    (l.filter (fun kv => kv.1 ≠ name)).lookup n' = l.lookup n' := by
  induction l with
  | nil => rfl
  | cons kv t ih =>
      rcases kv with ⟨k, v⟩
      by_cases hk : k = name
      · rw [List.filter_cons_of_neg (by simp [hk]), ih, List.lookup_cons]
        have hb : (n' == k) = false :=
          beq_eq_false_iff_ne.mpr (by rw [hk]; exact h)
        rw [hb]
      · rw [List.filter_cons_of_pos (by simp [hk]), List.lookup_cons,
          List.lookup_cons]
        rcases hbk : (n' == k) with _ | _
        · exact ih
        · rfl

/-- C8: template round-trip.  Saving makes the template retrievable under
its name while preserving every other stored template; deleting makes the
name unretrievable while preserving the others (modelled modulo the JSON
numeric representation, i.e. the store round-trips values exactly). -/
theorem c8_template_roundtrip {α : Type} (s : StoreFile α) (name : String)
    (config : α) (n' : String) (hne : n' ≠ name) :
    (load_templates (save_template name config s)).lookup name = some config
    ∧ (load_templates (save_template name config s)).lookup n' =
        (load_templates s).lookup n'
    ∧ (load_templates (delete_template name s)).lookup name = none
    ∧ (load_templates (delete_template name s)).lookup n' =
        (load_templates s).lookup n' := by
  refine ⟨lookup_upsert_self (load_templates s) name config,
    lookup_upsert_ne (load_templates s) name n' config hne, ?_, ?_⟩
  · rw [delete_template]
    rcases hs : ((load_templates s).lookup name).isSome with _ | _
    · simp only [hs, Bool.false_eq_true, if_false]
      exact Option.not_isSome_iff_eq_none.mp (by simp [hs])
    · simp only [hs, if_true]
      exact lookup_filter_self (load_templates s) name
  · rw [delete_template]
    rcases hs : ((load_templates s).lookup name).isSome with _ | _
    · simp [hs]
    · simp only [hs, if_true]
      exact lookup_filter_ne (load_templates s) name n' hne

/-- C8 witness: the round-trip at a concrete one-template store. -/
theorem c8_template_roundtrip_witness :
    (("other" : String) ≠ "t1")
    ∧ (load_templates (save_template ("t1") (7 : Int)
        (StoreFile.stored [(("other"), (42 : Int))]))).lookup ("t1") =
          some 7
    ∧ (load_templates (delete_template ("t1")
        (StoreFile.stored [(("other"), (42 : Int))]))).lookup ("t1") =
          none :=
  have h := c8_template_roundtrip
    (StoreFile.stored [(("other"), (42 : Int))]) ("t1") (7 : Int)
    ("other") (by decide)
  ⟨by decide, h.1, h.2.2.1⟩

end LCMS

namespace LCMS

/-- Clamp negative counts (and stored start counts) to zero. -/
def clampCounts (cfgs : TypeKey → SampleConfig) : TypeKey → SampleConfig :=
  fun k =>
    { cfgs k with
      count := max (cfgs k).count 0
      start_count := (cfgs k).start_count.map (fun n => max n 0) }

/-- Two counts with the same clamped value produce the same block. -/
theorem add_block_congr (s : String) {c c' : Int} (h : c.toNat = c'.toNat) :
    add_block s c = add_block s c' := by
  rw [add_block, add_block, h]

theorem clamp_count_toNat (cfgs : TypeKey → SampleConfig) (k : TypeKey) :
    (clampCounts cfgs k).count.toNat = (cfgs k).count.toNat := by
  simp only [clampCounts]
  omega

theorem clamp_start_toNat (cfgs : TypeKey → SampleConfig) (k : TypeKey) :
    ((clampCounts cfgs k).start_count.getD
        (clampCounts cfgs k).count).toNat =
      ((cfgs k).start_count.getD (cfgs k).count).toNat := by
  rcases hsc : (cfgs k).start_count with _ | v
  · simp only [clampCounts, hsc, Option.map_none', Option.getD_none]
    omega
  · simp only [clampCounts, hsc, Option.map_some', Option.getD_some]
    omega

theorem startBlockFor_clamp (cfgs : TypeKey → SampleConfig) (k : TypeKey) :
    startBlockFor (clampCounts cfgs) k = startBlockFor cfgs k := by
  have he : (clampCounts cfgs k).enabled = (cfgs k).enabled := rfl
  have hr : (clampCounts cfgs k).rule = (cfgs k).rule := rfl
  simp only [startBlockFor, he, hr]
  split_ifs
  · rfl
  · exact add_block_congr _ (clamp_count_toNat cfgs k)
  · exact add_block_congr _ (clamp_start_toNat cfgs k)
  · exact add_block_congr _ (clamp_count_toNat cfgs k)
  · rfl

theorem endBlockFor_clamp (cfgs : TypeKey → SampleConfig) (k : TypeKey) :
    endBlockFor (clampCounts cfgs) k = endBlockFor cfgs k := by
  have he : (clampCounts cfgs k).enabled = (cfgs k).enabled := rfl
  have hr : (clampCounts cfgs k).rule = (cfgs k).rule := rfl
  simp only [endBlockFor, he, hr]
  split_ifs
  · exact add_block_congr _ (clamp_count_toNat cfgs k)
  · rfl

theorem intervalBlockFor_clamp (cfgs : TypeKey → SampleConfig) (t : Nat)
    (k : TypeKey) :
    intervalBlockFor (clampCounts cfgs) t k = intervalBlockFor cfgs t k := by
  have hit : isIntervalType (clampCounts cfgs) k = isIntervalType cfgs k := rfl
  have hint : (clampCounts cfgs k).interval = (cfgs k).interval := rfl
  simp only [intervalBlockFor, hit, hint]
  split_ifs
  · exact add_block_congr _ (clamp_count_toNat cfgs k)
  · rfl

theorem intervalBlocksAt_clamp (cfgs : TypeKey → SampleConfig)
    (order : List TypeKey) (t : Nat) :
    intervalBlocksAt (clampCounts cfgs) order t =
      intervalBlocksAt cfgs order t := by
  rw [intervalBlocksAt, intervalBlocksAt]
  exact congrArg order.flatMap
    (funext (fun k => intervalBlockFor_clamp cfgs t k))

theorem mainRunFor_clamp (cfgs : TypeKey → SampleConfig)
    (order : List TypeKey) (k : TypeKey) (t0 : Nat) :
    mainRunFor (clampCounts cfgs) order k t0 = mainRunFor cfgs order k t0 := by
  rw [mainRunFor, mainRunFor, clamp_count_toNat cfgs k]
  exact congrArg (List.range (cfgs k).count.toNat).flatMap
    (funext (fun i => by rw [intervalBlocksAt_clamp]))

theorem mainItemsAux_clamp (cfgs : TypeKey → SampleConfig)
    (order : List TypeKey) :
    ∀ (ks : List TypeKey) (t0 : Nat),
      mainItemsAux (clampCounts cfgs) order ks t0 =
        mainItemsAux cfgs order ks t0
  | [], _ => rfl
  | k :: ks, t0 => by
      rw [mainItemsAux, mainItemsAux, mainRunFor_clamp,
        clamp_count_toNat cfgs k, mainItemsAux_clamp cfgs order ks]

/-- C10: totality of the Sequence Builder.  Non-positive counts
contribute no entries (`range(1, count+1)` is empty); clamping every
negative count to zero leaves the output unchanged, so negative counts
behave as zero throughout; and a category with `interval = 0` never
emits a repeat block (the modulo check is guarded by `interval > 0`, so
no modulo-by-zero is evaluated).  Missing category keys and missing
fields are the structure defaults, so `generate_sequence` is a total
function of its configuration. -/
theorem c10_sequence_builder_total (st : String) (n : Int)
    (cfgs : TypeKey → SampleConfig) (order : List TypeKey) (k : TypeKey)
    (t : Nat) (hn : n ≤ 0) (hk : (cfgs k).interval = 0) :
    add_block st n = []
    ∧ generate_sequence (clampCounts cfgs) order = generate_sequence cfgs order
    ∧ intervalBlockFor cfgs t k = [] := by
  refine ⟨?_, ?_, ?_⟩
  · rw [add_block, Int.toNat_of_nonpos hn]
    rfl
  · rw [generate_sequence, generate_sequence]
    have hstart : startItems (clampCounts cfgs) order = startItems cfgs order := by
      rw [startItems, startItems]
      exact congrArg order.flatMap
        (funext (fun j => startBlockFor_clamp cfgs j))
    have hend : endItems (clampCounts cfgs) order = endItems cfgs order := by
      rw [endItems, endItems]
      exact congrArg order.flatMap
        (funext (fun j => endBlockFor_clamp cfgs j))
    have hmt : mainTypes (clampCounts cfgs) order = mainTypes cfgs order := by
      rw [mainTypes, mainTypes]
      exact List.filter_congr (fun j _ => rfl)
    have hmain : mainItems (clampCounts cfgs) order = mainItems cfgs order := by
      rw [mainItems, mainItems, hmt, mainItemsAux_clamp]
    rw [hstart, hend, hmain]
  · rw [intervalBlockFor, if_neg]
    rintro ⟨_, h2, _⟩
    rw [hk] at h2
    exact lt_irrefl 0 h2

/-- C10 witness input: an enabled interval category with `interval = 0`
and a negative `count` on `samples`. -/
def cfgsC10w : TypeKey → SampleConfig := fun k =>
  match k with
  | .samples => { enabled := true, count := -2 }
  | .qc => { enabled := true, count := 3, rule := "At fixed interval",
             interval := 0 }
  | _ => {}

/-- C10 witness: the totality statement at concrete degenerate inputs. -/
theorem c10_sequence_builder_total_witness :
    add_block ("Sample") (-5) = []
    ∧ generate_sequence (clampCounts cfgsC10w) defaultOrder =
        generate_sequence cfgsC10w defaultOrder
    ∧ intervalBlockFor cfgsC10w 1 TypeKey.qc = [] :=
  c10_sequence_builder_total ("Sample") (-5) cfgsC10w defaultOrder
    TypeKey.qc 1 (by decide) (by decide)

end LCMS

namespace LCMS

/-- Distinct categories have distinct display names. -/
theorem type_display_injective :
    ∀ a b : TypeKey, a ≠ b → type_display a ≠ type_display b := by decide

theorem mem_add_block {e : SequenceEntry} {s : String} {n : Int}
    (h : e ∈ add_block s n) : e.type = s := by
  rw [add_block] at h
  rcases List.mem_map.mp h with ⟨i, _, rfl⟩
  rfl

theorem proj_eq_nil (cat : String) (l : List SequenceEntry)
    (h : ∀ e ∈ l, e.type ≠ cat) : proj cat l = [] := by
  rw [proj]
  refine List.filter_eq_nil_iff.mpr ?_
  intro e he
  simpa using h e he

theorem proj_append (cat : String) (l₁ l₂ : List SequenceEntry) :
    proj cat (l₁ ++ l₂) = proj cat l₁ ++ proj cat l₂ := by
  simp [proj, List.filter_append]

theorem proj_cons (cat : String) (x : SequenceEntry)
    (l : List SequenceEntry) :
    proj cat (x :: l) =
      if x.type == cat then x :: proj cat l else proj cat l := by
  rw [proj, proj, List.filter_cons]

theorem proj_flatMap {β : Type} (cat : String) (l : List β)
    (f : β → List SequenceEntry) :
    proj cat (l.flatMap f) = l.flatMap (fun x => proj cat (f x)) := by
  induction l with
  | nil => rfl
  | cons x t ih => simp [List.flatMap_cons, proj_append, ih]

theorem disable_ne {cfgs : TypeKey → SampleConfig} {c k : TypeKey}
    (hk : k ≠ c) : disable cfgs c k = cfgs k := by
  simp [disable, hk]

theorem disable_self_enabled {cfgs : TypeKey → SampleConfig} {c : TypeKey} :
    (disable cfgs c c).enabled = false := by
  simp [disable]

theorem startBlockFor_congr {cfgs1 cfgs2 : TypeKey → SampleConfig}
    (k : TypeKey) (h : cfgs1 k = cfgs2 k) :
    startBlockFor cfgs1 k = startBlockFor cfgs2 k := by
  simp only [startBlockFor, h]

theorem intervalBlockFor_congr {cfgs1 cfgs2 : TypeKey → SampleConfig}
    (t : Nat) (k : TypeKey) (h : cfgs1 k = cfgs2 k) :
    intervalBlockFor cfgs1 t k = intervalBlockFor cfgs2 t k := by
  simp only [intervalBlockFor, isIntervalType, h]

theorem endBlockFor_congr {cfgs1 cfgs2 : TypeKey → SampleConfig}
    (k : TypeKey) (h : cfgs1 k = cfgs2 k) :
    endBlockFor cfgs1 k = endBlockFor cfgs2 k := by
  simp only [endBlockFor, h]

theorem isMainType_congr {cfgs1 cfgs2 : TypeKey → SampleConfig}
    (k : TypeKey) (h : cfgs1 k = cfgs2 k) :
    isMainType cfgs1 k = isMainType cfgs2 k := by
  simp only [isMainType, h]

theorem mem_startBlockFor {cfgs : TypeKey → SampleConfig} {k : TypeKey}
    {e : SequenceEntry} (h : e ∈ startBlockFor cfgs k) :
    e.type = type_display k ∧ (cfgs k).enabled = true := by
  rw [startBlockFor] at h
  by_cases he : (cfgs k).enabled = false
  · rw [if_pos he] at h
    cases h
  · rw [if_neg he] at h
    have hen : (cfgs k).enabled = true := by
      rcases hb : (cfgs k).enabled with _ | _
      · exact absurd hb he
      · rfl
    refine ⟨?_, hen⟩
    split_ifs at h
    · exact mem_add_block h
    · exact mem_add_block h
    · exact mem_add_block h
    · cases h

theorem mem_intervalBlockFor {cfgs : TypeKey → SampleConfig} {t : Nat}
    {k : TypeKey} {e : SequenceEntry} (h : e ∈ intervalBlockFor cfgs t k) :
    e.type = type_display k ∧ (cfgs k).enabled = true := by
  rw [intervalBlockFor] at h
  split_ifs at h with hcond
  · refine ⟨mem_add_block h, ?_⟩
    rcases hcond with ⟨hit, _, _⟩
    rw [isIntervalType, Bool.and_eq_true] at hit
    exact hit.1
  · cases h

theorem mem_intervalBlocksAt {cfgs : TypeKey → SampleConfig}
    {order : List TypeKey} {t : Nat} {e : SequenceEntry}
    (h : e ∈ intervalBlocksAt cfgs order t) :
    ∃ k, e.type = type_display k ∧ (cfgs k).enabled = true := by
  rw [intervalBlocksAt] at h
  rcases List.mem_flatMap.mp h with ⟨k, _, hk⟩
  exact ⟨k, mem_intervalBlockFor hk⟩

theorem mem_endBlockFor {cfgs : TypeKey → SampleConfig} {k : TypeKey}
    {e : SequenceEntry} (h : e ∈ endBlockFor cfgs k) :
    e.type = type_display k ∧ (cfgs k).enabled = true := by
  rw [endBlockFor] at h
  split_ifs at h with hcond
  · exact ⟨mem_add_block h, hcond.1⟩
  · cases h

theorem mem_mainRunFor {cfgs : TypeKey → SampleConfig}
    {order : List TypeKey} {k : TypeKey} {t0 : Nat} {e : SequenceEntry}
    (h : e ∈ mainRunFor cfgs order k t0) :
    e.type = type_display k ∨
      ∃ k', e.type = type_display k' ∧ (cfgs k').enabled = true := by
  rw [mainRunFor] at h
  rcases List.mem_flatMap.mp h with ⟨i, _, hi⟩
  rcases List.mem_cons.mp hi with he | he
  · left
    rw [he]
  · right
    exact mem_intervalBlocksAt he

theorem mem_mainItemsAux {cfgs : TypeKey → SampleConfig}
    {order : List TypeKey} {e : SequenceEntry} :
    ∀ (ks : List TypeKey) (t0 : Nat),
      (∀ k ∈ ks, (cfgs k).enabled = true) →
      e ∈ mainItemsAux cfgs order ks t0 →
      ∃ k, e.type = type_display k ∧ (cfgs k).enabled = true
  | [], _, _, h => by cases h
  | k :: ks, t0, hks, h => by
      rw [mainItemsAux] at h
      rcases List.mem_append.mp h with h1 | h2
      · rcases mem_mainRunFor h1 with ht | ht
        · exact ⟨k, ht, hks k (List.mem_cons_self k ks)⟩
        · exact ht
      · exact mem_mainItemsAux ks (t0 + (cfgs k).count.toNat)
          (fun j hj => hks j (List.mem_cons_of_mem k hj)) h2

theorem mem_generate_sequence {cfgs : TypeKey → SampleConfig}
    {order : List TypeKey} {e : SequenceEntry}
    (h : e ∈ generate_sequence cfgs order) :
    ∃ k, e.type = type_display k ∧ (cfgs k).enabled = true := by
  rw [generate_sequence] at h
  rcases List.mem_append.mp h with h12 | h3
  · rcases List.mem_append.mp h12 with h1 | h2
    · rw [startItems] at h1
      rcases List.mem_flatMap.mp h1 with ⟨k, _, hk⟩
      exact ⟨k, mem_startBlockFor hk⟩
    · rw [mainItems] at h2
      refine mem_mainItemsAux (mainTypes cfgs order) 0 ?_ h2
      intro k hk
      rw [mainTypes] at hk
      have hm := (List.mem_filter.mp hk).2
      rw [isMainType, Bool.and_eq_true] at hm
      exact hm.1
  · rw [endItems] at h3
    rcases List.mem_flatMap.mp h3 with ⟨k, _, hk⟩
    exact ⟨k, mem_endBlockFor hk⟩

/-- Disabling a category removes every entry of that category from the
output, for every configuration and order. -/
theorem proj_gen_disable_self (cfgs : TypeKey → SampleConfig) (c : TypeKey)
    (order : List TypeKey) :
    proj (type_display c) (generate_sequence (disable cfgs c) order) = [] := by
  apply proj_eq_nil
  intro e he hcontra
  rcases mem_generate_sequence he with ⟨k, htype, hen⟩
  by_cases hk : k = c
  · subst hk
    rw [disable_self_enabled] at hen
    cases hen
  · exact type_display_injective k c hk (htype.symm.trans hcontra)

end LCMS

namespace LCMS

theorem proj_startBlockFor_disable (cfgs : TypeKey → SampleConfig)
    (c c' k : TypeKey) (hcc : c' ≠ c) :
    proj (type_display c') (startBlockFor (disable cfgs c) k) =
      proj (type_display c') (startBlockFor cfgs k) := by
  by_cases hk : k = c
  · subst hk
    have h1 : startBlockFor (disable cfgs k) k = [] := by
      rw [startBlockFor, if_pos disable_self_enabled]
    rw [h1]
    refine Eq.symm (proj_eq_nil _ _ ?_)
    intro e he hcontra
    exact type_display_injective c' k hcc
      (hcontra.symm.trans (mem_startBlockFor he).1)
  · exact congrArg (proj (type_display c')) (startBlockFor_congr k (disable_ne hk))

theorem proj_endBlockFor_disable (cfgs : TypeKey → SampleConfig)
    (c c' k : TypeKey) (hcc : c' ≠ c) :
    proj (type_display c') (endBlockFor (disable cfgs c) k) =
      proj (type_display c') (endBlockFor cfgs k) := by
  by_cases hk : k = c
  · subst hk
    have h1 : endBlockFor (disable cfgs k) k = [] := by
      rw [endBlockFor, if_neg]
      rintro ⟨hen, _⟩
      rw [disable_self_enabled] at hen
      cases hen
    rw [h1]
    refine Eq.symm (proj_eq_nil _ _ ?_)
    intro e he hcontra
    exact type_display_injective c' k hcc
      (hcontra.symm.trans (mem_endBlockFor he).1)
  · exact congrArg (proj (type_display c')) (endBlockFor_congr k (disable_ne hk))

theorem proj_intervalBlockFor_disable (cfgs : TypeKey → SampleConfig)
    (c c' k : TypeKey) (t : Nat) (hcc : c' ≠ c) :
    proj (type_display c') (intervalBlockFor (disable cfgs c) t k) =
      proj (type_display c') (intervalBlockFor cfgs t k) := by
  by_cases hk : k = c
  · subst hk
    have h1 : intervalBlockFor (disable cfgs k) t k = [] := by
      rw [intervalBlockFor, if_neg]
      rintro ⟨hit, _, _⟩
      rw [isIntervalType, disable_self_enabled] at hit
      cases hit
    rw [h1]
    refine Eq.symm (proj_eq_nil _ _ ?_)
    intro e he hcontra
    exact type_display_injective c' k hcc
      (hcontra.symm.trans (mem_intervalBlockFor he).1)
  · exact congrArg (proj (type_display c'))
      (intervalBlockFor_congr t k (disable_ne hk))

theorem proj_intervalBlocksAt_disable (cfgs : TypeKey → SampleConfig)
    (c c' : TypeKey) (order : List TypeKey) (t : Nat) (hcc : c' ≠ c) :
    proj (type_display c') (intervalBlocksAt (disable cfgs c) order t) =
      proj (type_display c') (intervalBlocksAt cfgs order t) := by
  rw [intervalBlocksAt, intervalBlocksAt, proj_flatMap, proj_flatMap]
  exact congrArg order.flatMap
    (funext fun k => proj_intervalBlockFor_disable cfgs c c' k t hcc)

theorem proj_mainRunFor_disable (cfgs : TypeKey → SampleConfig)
    (c c' k : TypeKey) (order : List TypeKey) (t0 : Nat) (hcc : c' ≠ c)
    (hk : k ≠ c) :
    proj (type_display c') (mainRunFor (disable cfgs c) order k t0) =
      proj (type_display c') (mainRunFor cfgs order k t0) := by
  rw [mainRunFor, mainRunFor, disable_ne hk, proj_flatMap, proj_flatMap]
  refine congrArg _ (funext fun i => ?_)
  rw [proj_cons, proj_cons, proj_intervalBlocksAt_disable cfgs c c' order _ hcc]

theorem proj_mainItemsAux_disable (cfgs : TypeKey → SampleConfig)
    (c c' : TypeKey) (order : List TypeKey) (hcc : c' ≠ c) :
    ∀ (ks : List TypeKey) (t0 : Nat), (∀ k ∈ ks, k ≠ c) →
      proj (type_display c') (mainItemsAux (disable cfgs c) order ks t0) =
        proj (type_display c') (mainItemsAux cfgs order ks t0)
  | [], _, _ => rfl
  | k :: ks, t0, hks => by
      have hkc : k ≠ c := hks k (List.mem_cons_self k ks)
      rw [mainItemsAux, mainItemsAux, proj_append, proj_append,
        proj_mainRunFor_disable cfgs c c' k order t0 hcc hkc,
        disable_ne hkc,
        proj_mainItemsAux_disable cfgs c c' order hcc ks
          (t0 + (cfgs k).count.toNat)
          (fun j hj => hks j (List.mem_cons_of_mem k hj))]

theorem isMainType_false_of_wf {cfgs : TypeKey → SampleConfig}
    {k : TypeKey} (hwf : wellFormedCfg cfgs) (hk : k ≠ TypeKey.samples) :
    isMainType cfgs k = false := by
  rcases hen : (cfgs k).enabled with _ | _
  · simp [isMainType, hen]
  · have hmem : (cfgs k).rule ∈ placementRules := by
      simpa using hwf k hk hen
    simp [isMainType, hen, hk, hmem]

/-- Projections onto a surviving category are unchanged when the disabled
category is not `samples` (under UI-reachable configurations). -/
theorem proj_gen_disable_eq (cfgs : TypeKey → SampleConfig)
    (c c' : TypeKey) (order : List TypeKey) (hwf : wellFormedCfg cfgs)
    (hc : c ≠ TypeKey.samples) (hcc : c' ≠ c) :
    proj (type_display c') (generate_sequence (disable cfgs c) order) =
      proj (type_display c') (generate_sequence cfgs order) := by
  have hmainc : isMainType cfgs c = false := isMainType_false_of_wf hwf hc
  have hmt : mainTypes (disable cfgs c) order = mainTypes cfgs order := by
    rw [mainTypes, mainTypes]
    refine List.filter_congr (fun k _ => ?_)
    by_cases hk : k = c
    · subst hk
      rw [hmainc, isMainType, disable_self_enabled]
      rfl
    · exact isMainType_congr k (disable_ne hk)
  have hknec : ∀ k ∈ mainTypes cfgs order, k ≠ c := by
    intro k hk he
    subst he
    rw [mainTypes, List.mem_filter, hmainc] at hk
    cases hk.2
  have h1 : proj (type_display c') (startItems (disable cfgs c) order) =
      proj (type_display c') (startItems cfgs order) := by
    rw [startItems, startItems, proj_flatMap, proj_flatMap]
    exact congrArg order.flatMap
      (funext fun k => proj_startBlockFor_disable cfgs c c' k hcc)
  have h3 : proj (type_display c') (endItems (disable cfgs c) order) =
      proj (type_display c') (endItems cfgs order) := by
    rw [endItems, endItems, proj_flatMap, proj_flatMap]
    exact congrArg order.flatMap
      (funext fun k => proj_endBlockFor_disable cfgs c c' k hcc)
  have h2 : proj (type_display c') (mainItems (disable cfgs c) order) =
      proj (type_display c') (mainItems cfgs order) := by
    rw [mainItems, mainItems, hmt]
    exact proj_mainItemsAux_disable cfgs c c' order hcc
      (mainTypes cfgs order) 0 hknec
  rw [generate_sequence, generate_sequence, proj_append, proj_append,
    proj_append, proj_append, h1, h2, h3]

/-- C7 amended: disabling a category removes all its entries (always);
and on UI-reachable configurations (every enabled category other than
`samples` carries one of the four placement rules), the remaining
entries of every other category keep their order and index fields — the
surviving projection is a sublist of the original projection (equal when
the disabled category is not `samples`; when `samples` is disabled only
the interval repeat blocks of the other categories drop out). -/
theorem c7_disabled_category_amended (cfgs : TypeKey → SampleConfig)
    (c : TypeKey) (order : List TypeKey) :
    proj (type_display c) (generate_sequence (disable cfgs c) order) = []
    ∧ (wellFormedCfg cfgs → ∀ c', c' ≠ c →
        List.Sublist
          (proj (type_display c') (generate_sequence (disable cfgs c) order))
          (proj (type_display c') (generate_sequence cfgs order))) := by
  refine ⟨proj_gen_disable_self cfgs c order, ?_⟩
  intro hwf c' hcc
  by_cases hc : c = TypeKey.samples
  · subst hc
    have hmt : mainTypes (disable cfgs TypeKey.samples) order = [] := by
      rw [mainTypes]
      refine List.filter_eq_nil_iff.mpr ?_
      intro k _
      by_cases hk : k = TypeKey.samples
      · subst hk
        simp [isMainType, disable_self_enabled]
      · rw [isMainType_congr k (disable_ne hk)]
        simp [isMainType_false_of_wf hwf hk]
    have hmain : mainItems (disable cfgs TypeKey.samples) order = [] := by
      rw [mainItems, hmt]
      rfl
    have h1 : proj (type_display c')
        (startItems (disable cfgs TypeKey.samples) order) =
        proj (type_display c') (startItems cfgs order) := by
      rw [startItems, startItems, proj_flatMap, proj_flatMap]
      exact congrArg order.flatMap
        (funext fun k => proj_startBlockFor_disable cfgs _ c' k hcc)
    have h3 : proj (type_display c')
        (endItems (disable cfgs TypeKey.samples) order) =
        proj (type_display c') (endItems cfgs order) := by
      rw [endItems, endItems, proj_flatMap, proj_flatMap]
      exact congrArg order.flatMap
        (funext fun k => proj_endBlockFor_disable cfgs _ c' k hcc)
    rw [generate_sequence, generate_sequence, proj_append, proj_append,
      proj_append, proj_append, h1, h3, hmain]
    exact ((List.Sublist.refl _).append (List.nil_sublist _)).append
      (List.Sublist.refl _)
  · have heq := proj_gen_disable_eq cfgs c c' order hwf hc hcc
    rw [heq]

/-- C7 counterexample input: `standards` enabled with an empty rule (a
degenerate main category) and `samples` itself carrying the
`At fixed interval` rule with interval 2. -/
def cfgsC7 : TypeKey → SampleConfig := fun k =>
  match k with
  | .standards => { enabled := true, count := 1 }
  | .samples => { enabled := true, count := 2, rule := "At fixed interval",
                  interval := 2 }
  | _ => {}

/-- C7 counterexample: disabling `standards` shifts where the Sample
interval block falls, so the surviving Sample entries change their index
pattern — the new Sample projection is not a sublist of the old one
(equal lengths, different lists), contradicting the unrestricted claim. -/
theorem c7_disabled_category_counterexample :
    proj (type_display TypeKey.samples)
        (generate_sequence (disable cfgsC7 TypeKey.standards) defaultOrder) =
      [⟨"Sample", 1⟩, ⟨"Sample", 2⟩, ⟨"Sample", 1⟩, ⟨"Sample", 2⟩,
       ⟨"Sample", 1⟩, ⟨"Sample", 2⟩]
    ∧ proj (type_display TypeKey.samples)
        (generate_sequence cfgsC7 defaultOrder) =
      [⟨"Sample", 1⟩, ⟨"Sample", 2⟩, ⟨"Sample", 1⟩, ⟨"Sample", 1⟩,
       ⟨"Sample", 2⟩, ⟨"Sample", 2⟩]
    ∧ ¬ List.Sublist
        ([⟨"Sample", 1⟩, ⟨"Sample", 2⟩, ⟨"Sample", 1⟩, ⟨"Sample", 2⟩,
          ⟨"Sample", 1⟩, ⟨"Sample", 2⟩] : List SequenceEntry)
        [⟨"Sample", 1⟩, ⟨"Sample", 2⟩, ⟨"Sample", 1⟩, ⟨"Sample", 1⟩,
         ⟨"Sample", 2⟩, ⟨"Sample", 2⟩] := by
  refine ⟨by decide, by decide, ?_⟩
  intro h
  have heq := h.eq_of_length (by decide)
  exact absurd heq (by decide)

/-- C7 witness input: a UI-reachable configuration (`samples` main with
count 2, `qc` on `At fixed interval` every 2 samples). -/
def cfgsC7w : TypeKey → SampleConfig := fun k =>
  match k with
  | .samples => { enabled := true, count := 2 }
  | .qc => { enabled := true, count := 1, rule := "At fixed interval",
             interval := 2 }
  | _ => {}

/-- C7 witness: the amended statement at a concrete configuration. -/
theorem c7_disabled_category_witness :
    proj (type_display TypeKey.qc)
        (generate_sequence (disable cfgsC7w TypeKey.qc) defaultOrder) = []
    ∧ wellFormedCfg cfgsC7w
    ∧ List.Sublist
        (proj (type_display TypeKey.samples)
          (generate_sequence (disable cfgsC7w TypeKey.qc) defaultOrder))
        (proj (type_display TypeKey.samples)
          (generate_sequence cfgsC7w defaultOrder)) :=
  ⟨(c7_disabled_category_amended cfgsC7w TypeKey.qc defaultOrder).1,
   by decide,
   (c7_disabled_category_amended cfgsC7w TypeKey.qc defaultOrder).2
     (by decide) TypeKey.samples (by decide)⟩

end LCMS
